import Mathlib

/-! Verification of `allocation/allocations.go`.

A shallow embedding of the reconciliation loop `SyncAllocations`, of its
membership helper `allocationInSlice`, and of the one-shot size probe
`GetLogSize` with its helper `readStreamFrame`.

Conventions of the embedding.

* A Go slice is a `List`; `append(s, x)` is `s ++ [x]`.
* A Go `error` value is `Option GoError`, with `none` for `nil`.
* A channel send is recorded, in program order, in the trace of the tick; the
  channels are taken to be drained, so that every send completes.
* One iteration of the `for` loop of `SyncAllocations` is `syncTick`; the
  loop itself is `SyncAllocations`, driven by the list of results that the
  successive calls of `GetAllocationsForNode` return.
* Go's `int` is taken at its 64-bit width and wraps around (`wrapInt`).
* A `select` with two ready cases takes either; the choice is a parameter.
-/

namespace NomadShipper

/-! ## Data model -/

/-- The fields of `nomad.Allocation` that the package reads (`ID`,
`ClientStatus`), and one further field standing for the rest of the
snapshot, which the package copies and never inspects. -/
structure Allocation where
  ID : String
  ClientStatus : String
  Name : String
  deriving DecidableEq, Repr

/-- A non-nil Go `error` value. -/
structure GoError where
  msg : String
  deriving DecidableEq, Repr

/-- The two results of `GetAllocationsForNode`: `allocations, err`. -/
structure FetchResult where
  allocations : List Allocation
  err : Option GoError
  deriving DecidableEq, Repr

/-- The observable steps of one tick of `SyncAllocations`, in program order. -/
inductive Step where
  /-- Line 29, `currentAllocs := *currentAllocations`. -/
  | load : Step
  /-- Line 39, the call of `GetAllocationsForNode`. -/
  | fetch : Step
  /-- Line 44, `errChan <- err`. -/
  | sendErr (e : GoError) : Step
  /-- Line 52, `addedChan <- *allocation`. -/
  | sendAdded (a : Allocation) : Step
  /-- Line 62, `removedChan <- allocation`. -/
  | sendRemoved (a : Allocation) : Step
  /-- Line 68, `mutex.Lock()`. -/
  | lock : Step
  /-- Line 69, `*currentAllocations = foundAllocations`. -/
  | store (v : List Allocation) : Step
  /-- Line 70, `mutex.Unlock()`. -/
  | unlock : Step
  deriving DecidableEq, Repr

/-! ## The reconciler -/

/-- The function `allocationInSlice`: is some element of `list` of the same
`ID` as `item`? -/
def allocationInSlice (item : Allocation) : List Allocation → Bool
  | [] => false
  | i :: rest => if i.ID = item.ID then true else allocationInSlice item rest

/-- The test of line 47. -/
def isLive (allocation : Allocation) : Bool :=
  allocation.ClientStatus == "running" || allocation.ClientStatus == "restarting"

/-- The loop of lines 46-56 over the fetched `allocations`; the state is
`foundAllocations` and the steps performed so far. -/
def scanFetched (currentAllocs : List Allocation) :
    List Allocation → List Allocation × List Step → List Allocation × List Step
  | [], st => st
  | allocation :: rest, (foundAllocations, trace) =>
    if isLive allocation then
      if !allocationInSlice allocation currentAllocs then
        scanFetched currentAllocs rest
          (foundAllocations ++ [allocation], trace ++ [Step.sendAdded allocation])
      else
        scanFetched currentAllocs rest (foundAllocations ++ [allocation], trace)
    else
      scanFetched currentAllocs rest (foundAllocations, trace)

/-- The loop of lines 59-65 over `currentAllocs`. -/
def scanCurrent (foundAllocations : List Allocation) :
    List Allocation → List Step → List Step
  | [], trace => trace
  | allocation :: rest, trace =>
    if !allocationInSlice allocation foundAllocations then
      scanCurrent foundAllocations rest (trace ++ [Step.sendRemoved allocation])
    else
      scanCurrent foundAllocations rest trace

/-- The state after one tick: the steps performed and the value of
`*currentAllocations`. -/
structure TickResult where
  trace : List Step
  currentAllocations : List Allocation
  deriving DecidableEq, Repr

/-- One iteration of the `for` loop of `SyncAllocations` (lines 27-71), on the
pre-tick value of `*currentAllocations` and the result of the fetch. -/
def syncTick (currentAllocations : List Allocation) (r : FetchResult) : TickResult :=
  let currentAllocs := currentAllocations
  let trace := [Step.load, Step.fetch]
  match r.err with
  | some err => TickResult.mk (trace ++ [Step.sendErr err]) currentAllocations
  | none =>
    let (foundAllocations, trace) := scanFetched currentAllocs r.allocations ([], trace)
    let trace :=
      if currentAllocs.length > 0 then scanCurrent foundAllocations currentAllocs trace
      else trace
    TickResult.mk (trace ++ [Step.lock, Step.store foundAllocations, Step.unlock])
      foundAllocations

/-- The loop of `SyncAllocations`: one tick per fetch result, each starting
from the Tracked Set the previous one left. -/
def SyncAllocations (currentAllocations : List Allocation) :
    List FetchResult → List Step × List Allocation
  | [] => ([], currentAllocations)
  | r :: rest =>
    let t := syncTick currentAllocations r
    let (trace, final) := SyncAllocations t.currentAllocations rest
    (t.trace ++ trace, final)

/-- The allocations sent on `addedChan`, in order. -/
def addedEvents : List Step → List Allocation
  | [] => []
  | Step.sendAdded a :: rest => a :: addedEvents rest
  | _ :: rest => addedEvents rest

/-- The allocations sent on `removedChan`, in order. -/
def removedEvents : List Step → List Allocation
  | [] => []
  | Step.sendRemoved a :: rest => a :: removedEvents rest
  | _ :: rest => removedEvents rest

/-- The errors sent on `errChan`, in order. -/
def errEvents : List Step → List GoError
  | [] => []
  | Step.sendErr e :: rest => e :: errEvents rest
  | _ :: rest => errEvents rest

/-- The IDs of a list of allocations (lines 31-35 compute this for logging). -/
def ids (l : List Allocation) : List String := l.map (fun a => a.ID)

/-- The Found Set of a fetched list, as the specification words it: the
workloads whose status is `running` or `restarting`, in the order of the
list. -/
def foundSet (l : List Allocation) : List Allocation :=
  l.filter (fun w => w.ClientStatus = "running" ∨ w.ClientStatus = "restarting")

/-- A fetch that succeeded with the list `l`: `err == nil`. -/
def fetched (l : List Allocation) : FetchResult := FetchResult.mk l none

/-- A consumer of the event channels that keeps a set of IDs: it inserts the ID of each
workload received on `addedChan` and erases the ID of each workload received
on `removedChan`, in the order in which they were sent. -/
def replay (s : Finset String) : List Step → Finset String
  | [] => s
  | Step.sendAdded a :: rest => replay (insert a.ID s) rest
  | Step.sendRemoved a :: rest => replay (s.erase a.ID) rest
  | _ :: rest => replay s rest

/-! ## The one-shot size probe: embedding

`Logs` returns two channels, `frames` and `errs`, and `readStreamFrame`
receives from them with a `select`. A select takes a case that is ready, and
any one of them when both are: a value queued on `errs` can be taken while
frames are still queued on `frames`. The embedding therefore keeps the two
channels apart, each with what has been delivered on it and not yet received,
and takes the choice of every select as a parameter. -/

/-- The field of `nomad.StreamFrame` that the package reads. -/
structure StreamFrame where
  Data : List (Fin 256)
  deriving DecidableEq, Repr

/-- The value `io.EOF`. -/
def ioEOF : GoError := GoError.mk "EOF"

/-- Arithmetic of Go's `int` at 64 bits: the result of an addition is reduced
to the range from `-2^63` to `2^63 - 1`. -/
def wrapInt (x : Int) : Int := (x + 2 ^ 63) % 2 ^ 64 - 2 ^ 63

/-- The two channels of a stream: the frames queued on `frames`, oldest first
(addresses of decoded frames, never `nil`), whether `frames` has been closed
behind them, and the values queued on `errs`, oldest first. -/
structure LogStream where
  frames : List StreamFrame
  closed : Bool
  errs : List (Option GoError)
  deriving DecidableEq, Repr

/-- The case `frame, ok := <-frames` of lines 145-150, when it is ready: the
oldest queued frame gives its length and a `nil` error, and a closed channel
with nothing queued gives `io.EOF`. It is `none` when the case is not ready. -/
def recvFrames (s : LogStream) : Option ((Int × Option GoError) × LogStream) :=
  match s.frames with
  | frame :: rest => some ((frame.Data.length, none), LogStream.mk rest s.closed s.errs)
  | [] => if s.closed then some ((0, some ioEOF), s) else none

/-- The case `err := <-errs` of lines 151-152, when it is ready. -/
def recvErrs (s : LogStream) : Option ((Int × Option GoError) × LogStream) :=
  match s.errs with
  | err :: rest => some ((0, err), LogStream.mk s.frames s.closed rest)
  | [] => none

/-- The function `readStreamFrame` (lines 143-154): its two results and the
channels after the receive. When both cases of the `select` are ready,
`pickErrs` tells which one it takes; when none is, the call blocks (`none`). -/
def readStreamFrame (pickErrs : Bool) (s : LogStream) :
    Option ((Int × Option GoError) × LogStream) :=
  match recvFrames s, recvErrs s with
  | some a, some b => if pickErrs then some b else some a
  | some a, none => some a
  | none, some b => some b
  | none, none => none

/-- A bound on the calls of `readStreamFrame` that the loop still makes. -/
def pending (s : LogStream) (err : Option GoError) : Nat :=
  match err with
  | some _ => 0
  | none => s.frames.length + s.errs.length + 1

set_option linter.unusedVariables false in
/-- The loop `for err == nil` of lines 117-120; `pick i` is the choice of the
select of call number `i` of `readStreamFrame`. The result is the pair of
`size` and `err` at the exit of the loop, and `none` when a call blocks for
ever. -/
def drainLoop (pick : Nat → Bool) (i : Nat) (s : LogStream) (size : Int)
    (err : Option GoError) : Option (Int × Option GoError) :=
  match err with
  | some e => some (size, some e)
  | none =>
    match h : readStreamFrame (pick i) s with
    | none => none
    | some ((n, err1), s1) => drainLoop pick (i + 1) s1 (wrapInt (size + n)) err1
termination_by pending s err
decreasing_by
  simp_wf
  obtain ⟨frames, closed, errs⟩ := s
  cases err1 with
  | some e => simp [pending]
  | none =>
    simp only [pending]
    unfold readStreamFrame recvFrames recvErrs at h
    cases frames <;> cases errs <;> cases closed <;> simp at h <;>
      (try split at h) <;> (try simp at h) <;> obtain ⟨_, rfl⟩ := h <;> simp

/-- The body of `GetLogSize` up to the exit of its loop (lines 108-120): the
values of `size` and `err` there. -/
def getLogSizeLocals (pick : Nat → Bool) (s : LogStream) : Option (Int × Option GoError) :=
  match readStreamFrame (pick 0) s with
  | none => none
  | some ((n, err), s1) =>
    let size := 0
    let size := wrapInt (size + n)
    drainLoop pick 1 s1 size err

/-- The function `GetLogSize` (lines 105-123), on the stream opened at line
106: it returns `int64(size)` and nothing else. -/
def GetLogSize (pick : Nat → Bool) (s : LogStream) : Option Int :=
  (getLogSizeLocals pick s).map (fun st => st.1)

/-- The sum of the byte lengths of a list of frames. -/
def totalSize (fs : List StreamFrame) : Int :=
  (fs.map (fun f => (f.Data.length : Int))).sum

/-- How many of `n` queued frames the calls of `readStreamFrame` from number
`i` on receive before a select takes the value queued on `errs`. -/
def receivedBeforeError (pick : Nat → Bool) (i : Nat) : Nat → Nat
  | 0 => 0
  | n + 1 => if pick i then 0 else receivedBeforeError pick (i + 1) n + 1

/-- A frame of `n` zero bytes. -/
def frameOfSize (n : Nat) : StreamFrame := StreamFrame.mk (List.replicate n 0)

/-! ## The mutex and the shared Tracked Set

The slice `*currentAllocations` is a header of several words, and the
assignment of line 69 writes it word by word: between its first and its last
word another goroutine that reads the header reads a partially written
sequence. The model below runs the steps of one tick of the reconciler
against the steps of a second goroutine, under any schedule. -/

/-- Is every access of the Tracked Set in a list of steps, `load` or `store`,
made while the goroutine that runs the steps holds the mutex? The flag is
whether it holds the mutex before the first step. -/
def accessesLocked : Bool → List Step → Bool
  | _, [] => true
  | _, Step.lock :: rest => accessesLocked true rest
  | _, Step.unlock :: rest => accessesLocked false rest
  | held, Step.load :: rest => held && accessesLocked held rest
  | held, Step.store _ :: rest => held && accessesLocked held rest
  | held, _ :: rest => accessesLocked held rest

/-- Is every `store` of a list of steps made while the goroutine that runs
the steps holds the mutex? -/
def storesLocked : Bool → List Step → Bool
  | _, [] => true
  | _, Step.lock :: rest => storesLocked true rest
  | _, Step.unlock :: rest => storesLocked false rest
  | held, Step.store _ :: rest => held && storesLocked held rest
  | held, _ :: rest => storesLocked held rest

/-- Does the goroutine that runs a list of steps hold the mutex after them?
The flag is whether it holds it before the first step. -/
def heldAfter : Bool → List Step → Bool
  | held, [] => held
  | _, Step.lock :: rest => heldAfter true rest
  | _, Step.unlock :: rest => heldAfter false rest
  | held, _ :: rest => heldAfter held rest

/-- The two goroutines of the model: the reconciler and one other. -/
inductive Tid where
  | reconciler : Tid
  | other : Tid
  deriving DecidableEq, Repr

/-- A goroutine: the steps it has still to run, whether it is in the middle of
a `store`, and what its `load`s have read so far, `none` standing for a
partially written sequence. -/
structure Thread where
  todo : List Step
  writing : Bool
  seen : List (Option (List Allocation))
  deriving DecidableEq, Repr

/-- The shared memory and the goroutines: `cell` is `*currentAllocations`,
`none` while it is partially written, and `owner` is who holds the mutex. -/
structure Machine where
  cell : Option (List Allocation)
  owner : Option Tid
  reconciler : Thread
  other : Thread
  deriving DecidableEq, Repr

/-- One step of the goroutine `tid`, or `none` when it cannot move: it has
finished, it waits in `Lock` for a mutex that is held, or it unlocks a mutex
it does not hold. A `store` takes two steps, and the cell is partially written
in between. -/
def stepThread (tid : Tid) (cell : Option (List Allocation)) (owner : Option Tid)
    (th : Thread) : Option (Option (List Allocation) × Option Tid × Thread) :=
  match th.todo with
  | [] => none
  | Step.lock :: rest =>
    if owner = none then some (cell, some tid, Thread.mk rest th.writing th.seen) else none
  | Step.unlock :: rest =>
    if owner = some tid then some (cell, none, Thread.mk rest th.writing th.seen) else none
  | Step.load :: rest => some (cell, owner, Thread.mk rest th.writing (th.seen ++ [cell]))
  | Step.store v :: rest =>
    if th.writing then some (some v, owner, Thread.mk rest false th.seen)
    else some (none, owner, Thread.mk (Step.store v :: rest) true th.seen)
  | _ :: rest => some (cell, owner, Thread.mk rest th.writing th.seen)

/-- The machine after the scheduler picks `tid`; a goroutine that cannot move
leaves it as it is. -/
def Machine.step (m : Machine) (tid : Tid) : Machine :=
  match tid with
  | Tid.reconciler =>
    match stepThread Tid.reconciler m.cell m.owner m.reconciler with
    | none => m
    | some (cell, owner, th) => Machine.mk cell owner th m.other
  | Tid.other =>
    match stepThread Tid.other m.cell m.owner m.other with
    | none => m
    | some (cell, owner, th) => Machine.mk cell owner m.reconciler th

/-- The machine after a schedule. -/
def Machine.run (m : Machine) (schedule : List Tid) : Machine :=
  schedule.foldl Machine.step m

/-- The start of a tick: the Tracked Set is `A`, nobody holds the mutex, the
reconciler is about to run the steps of the tick that `syncTick` gives for
the fetch result `r`, and the second goroutine is about to run `program`. -/
def tickMachine (A : List Allocation) (r : FetchResult) (program : List Step) : Machine :=
  Machine.mk (some A) none (Thread.mk (syncTick A r).trace false [])
    (Thread.mk program false [])

/-- Modelled from the spec: a concurrent reader of the Tracked Set that takes
the lock. The readers are callers of the package and are not in
`allocations.go`; this one does `Lock`, reads the Tracked Set, and does
`Unlock`. -/
def lockingReader : List Step := [Step.lock, Step.load, Step.unlock]

/-- Modelled from the spec: an external writer of the Tracked Set, which may
only replace the whole sequence while holding the lock. The writers are
callers of the package and are not in `allocations.go`; this one does `Lock`,
writes `v`, and does `Unlock`. -/
def lockingWriter (v : List Allocation) : List Step := [Step.lock, Step.store v, Step.unlock]

/-- The invariant of the machine under lock discipline, for the old value `A`
and the new value `B` of the Tracked Set: the reconciler stores only `B` and
only while it holds the mutex, the other goroutine stores nothing and reads
only while it holds the mutex, the cell is partially written only in the
middle of a store of the reconciler, and the second goroutine has read whole
values only. -/
structure Inv (A B : List Allocation) (m : Machine) : Prop where
  recStores : storesLocked (decide (m.owner = some Tid.reconciler)) m.reconciler.todo = true
  recValues : ∀ v, Step.store v ∈ m.reconciler.todo → v = B
  recWriting : m.reconciler.writing = true →
    m.owner = some Tid.reconciler ∧ ∃ v rest, m.reconciler.todo = Step.store v :: rest
  rdAccesses : accessesLocked (decide (m.owner = some Tid.other)) m.other.todo = true
  rdStores : ∀ v, Step.store v ∉ m.other.todo
  cellTorn : m.cell = none → m.reconciler.writing = true
  cellValues : ∀ v, m.cell = some v → v = A ∨ v = B
  rdSeen : ∀ o ∈ m.other.seen, o = some A ∨ o = some B

/-! ## Lemmas on the loops -/

theorem allocationInSlice_iff (item : Allocation) (list : List Allocation) :
    allocationInSlice item list = true ↔ item.ID ∈ ids list := by
  induction list with
  | nil => simp [allocationInSlice, ids]
  | cons i rest ih =>
    unfold allocationInSlice
    by_cases h : i.ID = item.ID
    · simp [h, ids]
    · have h2 : ¬ item.ID = i.ID := fun e => h e.symm
      simpa [h, h2, ids] using ih

theorem allocationInSlice_false_iff (item : Allocation) (list : List Allocation) :
    allocationInSlice item list = false ↔ item.ID ∉ ids list := by
  rw [← allocationInSlice_iff]; simp

theorem isLive_iff (w : Allocation) :
    isLive w = true ↔ (w.ClientStatus = "running" ∨ w.ClientStatus = "restarting") := by
  simp [isLive]

theorem scanFetched_eq (cur l found : List Allocation) (trace : List Step) :
    scanFetched cur l (found, trace) =
      (found ++ l.filter isLive,
       trace ++ (l.filter (fun a => isLive a && !allocationInSlice a cur)).map Step.sendAdded) := by
  induction l generalizing found trace with
  | nil => simp [scanFetched]
  | cons a rest ih =>
    unfold scanFetched
    by_cases hl : isLive a = true
    · by_cases hin : allocationInSlice a cur = true
      · simp [hl, hin, ih]
      · simp [hl, hin, ih]
    · simp [hl, ih]

theorem scanCurrent_eq (found l : List Allocation) (trace : List Step) :
    scanCurrent found l trace =
      trace ++ (l.filter (fun a => !allocationInSlice a found)).map Step.sendRemoved := by
  induction l generalizing trace with
  | nil => simp [scanCurrent]
  | cons a rest ih =>
    unfold scanCurrent
    by_cases hin : allocationInSlice a found = true
    · simp [hin, ih]
    · simp [hin, ih]

theorem foundSet_eq (l : List Allocation) : foundSet l = l.filter isLive := by
  unfold foundSet
  congr 1
  funext w
  by_cases h1 : w.ClientStatus = "running" <;> by_cases h2 : w.ClientStatus = "restarting" <;>
    simp [isLive, h1, h2]

/-- The trace of a tick whose fetch succeeded, in closed form. -/
theorem syncTick_fetched (A L : List Allocation) :
    syncTick A (fetched L) =
      TickResult.mk
        ([Step.load, Step.fetch]
          ++ (L.filter (fun a => isLive a && !allocationInSlice a A)).map Step.sendAdded
          ++ (A.filter (fun a => !allocationInSlice a (L.filter isLive))).map Step.sendRemoved
          ++ [Step.lock, Step.store (L.filter isLive), Step.unlock])
        (L.filter isLive) := by
  cases A with
  | nil => simp [syncTick, fetched, scanFetched_eq]
  | cons a rest => simp [syncTick, fetched, scanFetched_eq, scanCurrent_eq]

theorem addedEvents_append (s t : List Step) :
    addedEvents (s ++ t) = addedEvents s ++ addedEvents t := by
  induction s with
  | nil => simp [addedEvents]
  | cons x rest ih => cases x <;> simp [addedEvents, ih]

theorem removedEvents_append (s t : List Step) :
    removedEvents (s ++ t) = removedEvents s ++ removedEvents t := by
  induction s with
  | nil => simp [removedEvents]
  | cons x rest ih => cases x <;> simp [removedEvents, ih]

theorem addedEvents_sendAdded (l : List Allocation) :
    addedEvents (l.map Step.sendAdded) = l := by
  induction l with
  | nil => simp [addedEvents]
  | cons x rest ih => simp [addedEvents, ih]

theorem addedEvents_sendRemoved (l : List Allocation) :
    addedEvents (l.map Step.sendRemoved) = [] := by
  induction l with
  | nil => simp [addedEvents]
  | cons x rest ih => simp [addedEvents, ih]

theorem removedEvents_sendRemoved (l : List Allocation) :
    removedEvents (l.map Step.sendRemoved) = l := by
  induction l with
  | nil => simp [removedEvents]
  | cons x rest ih => simp [removedEvents, ih]

theorem removedEvents_sendAdded (l : List Allocation) :
    removedEvents (l.map Step.sendAdded) = [] := by
  induction l with
  | nil => simp [removedEvents]
  | cons x rest ih => simp [removedEvents, ih]

/-- The Added events of a successful tick, in closed form. -/
theorem addedEvents_fetched (A L : List Allocation) :
    addedEvents (syncTick A (fetched L)).trace =
      L.filter (fun a => isLive a && !allocationInSlice a A) := by
  rw [syncTick_fetched]
  simp [addedEvents_append, addedEvents_sendAdded, addedEvents_sendRemoved, addedEvents]

/-- The Removed events of a successful tick, in closed form. -/
theorem removedEvents_fetched (A L : List Allocation) :
    removedEvents (syncTick A (fetched L)).trace =
      A.filter (fun a => !allocationInSlice a (L.filter isLive)) := by
  rw [syncTick_fetched]
  simp [removedEvents_append, removedEvents_sendAdded, removedEvents_sendRemoved, removedEvents]

theorem mem_ids_iff (l : List Allocation) (x : String) :
    x ∈ ids l ↔ ∃ w, w ∈ l ∧ w.ID = x := by
  unfold ids
  exact List.mem_map

theorem mem_ids_added (A L : List Allocation) (x : String) :
    x ∈ ids (L.filter (fun a => isLive a && !allocationInSlice a A)) ↔
      x ∈ ids (L.filter isLive) ∧ x ∉ ids A := by
  constructor
  · intro h
    obtain ⟨w, hw, rfl⟩ := (mem_ids_iff _ _).1 h
    rw [List.mem_filter] at hw
    obtain ⟨hw, hc⟩ := hw
    simp only [Bool.and_eq_true, Bool.not_eq_true'] at hc
    exact ⟨(mem_ids_iff _ _).2 ⟨w, List.mem_filter.2 ⟨hw, hc.1⟩, rfl⟩,
      (allocationInSlice_false_iff w A).1 hc.2⟩
  · rintro ⟨h, hx⟩
    obtain ⟨w, hw, rfl⟩ := (mem_ids_iff _ _).1 h
    rw [List.mem_filter] at hw
    refine (mem_ids_iff _ _).2 ⟨w, List.mem_filter.2 ⟨hw.1, ?_⟩, rfl⟩
    simp [hw.2, (allocationInSlice_false_iff w A).2 hx]

theorem mem_ids_removed (A B : List Allocation) (x : String) :
    x ∈ ids (A.filter (fun a => !allocationInSlice a B)) ↔ x ∈ ids A ∧ x ∉ ids B := by
  constructor
  · intro h
    obtain ⟨w, hw, rfl⟩ := (mem_ids_iff _ _).1 h
    rw [List.mem_filter] at hw
    obtain ⟨hw, hc⟩ := hw
    simp only [Bool.not_eq_true'] at hc
    exact ⟨(mem_ids_iff _ _).2 ⟨w, hw, rfl⟩, (allocationInSlice_false_iff w B).1 hc⟩
  · rintro ⟨h, hx⟩
    obtain ⟨w, hw, rfl⟩ := (mem_ids_iff _ _).1 h
    refine (mem_ids_iff _ _).2 ⟨w, List.mem_filter.2 ⟨hw, ?_⟩, rfl⟩
    simp [(allocationInSlice_false_iff w B).2 hx]

theorem ids_filter_nodup (l : List Allocation) (p : Allocation → Bool)
    (h : (ids l).Nodup) : (ids (l.filter p)).Nodup :=
  List.Nodup.sublist (List.Sublist.map _ (List.filter_sublist l)) h

theorem replay_append (s : Finset String) (t u : List Step) :
    replay s (t ++ u) = replay (replay s t) u := by
  induction t generalizing s with
  | nil => simp [replay]
  | cons x rest ih => cases x <;> simp [replay, ih]

theorem replay_sendAdded (s : Finset String) (l : List Allocation) :
    replay s (l.map Step.sendAdded) = s ∪ (ids l).toFinset := by
  induction l generalizing s with
  | nil => simp [replay, ids]
  | cons a rest ih =>
    simp only [List.map_cons, replay, ih]
    ext x
    simp [ids]

theorem replay_sendRemoved (s : Finset String) (l : List Allocation) :
    replay s (l.map Step.sendRemoved) = s \ (ids l).toFinset := by
  induction l generalizing s with
  | nil => simp [replay, ids]
  | cons a rest ih =>
    simp only [List.map_cons, replay, ih]
    ext x
    simp [ids]
    tauto

/-- ID-set bookkeeping of a successful tick. -/
theorem ids_bookkeeping (A L : List Allocation) :
    ((ids A).toFinset ∪ (ids (L.filter (fun a => isLive a && !allocationInSlice a A))).toFinset)
        \ (ids (A.filter (fun a => !allocationInSlice a (L.filter isLive)))).toFinset =
      (ids (L.filter isLive)).toFinset := by
  ext x
  simp only [Finset.mem_sdiff, Finset.mem_union, List.mem_toFinset, mem_ids_added,
    mem_ids_removed]
  tauto

/-- Replaying the events of one tick, whatever the fetch returned, takes the
ID set of the pre-tick Tracked Set to that of the post-tick Tracked Set. -/
theorem replay_syncTick (A : List Allocation) (r : FetchResult) :
    replay (ids A).toFinset (syncTick A r).trace =
      (ids (syncTick A r).currentAllocations).toFinset := by
  obtain ⟨L, err⟩ := r
  cases err with
  | some e => simp [syncTick, replay]
  | none =>
    have h := syncTick_fetched A L
    unfold fetched at h
    rw [h]
    have hpre : ∀ s : Finset String, replay s [Step.load, Step.fetch] = s := fun _ => rfl
    have hpost : ∀ (s : Finset String) (v : List Allocation),
        replay s [Step.lock, Step.store v, Step.unlock] = s := fun _ _ => rfl
    simp only [replay_append, replay_sendAdded, replay_sendRemoved, hpre, hpost]
    exact ids_bookkeeping A L

theorem wrapInt_eq_self (x : Int) (h0 : 0 ≤ x) (h1 : x < 2 ^ 63) : wrapInt x = x := by
  unfold wrapInt
  have : (x + 2 ^ 63) % 2 ^ 64 = x + 2 ^ 63 := by
    apply Int.emod_eq_of_lt <;> omega
  omega

theorem totalSize_nonneg (fs : List StreamFrame) : 0 ≤ totalSize fs := by
  induction fs with
  | nil => simp [totalSize]
  | cons f rest ih =>
    unfold totalSize at ih ⊢
    simp only [List.map_cons, List.sum_cons]
    omega

theorem totalSize_cons (f : StreamFrame) (fs : List StreamFrame) :
    totalSize (f :: fs) = (f.Data.length : Int) + totalSize fs := by
  simp [totalSize]

theorem drainLoop_some (pick : Nat → Bool) (i : Nat) (s : LogStream) (size : Int) (e : GoError) :
    drainLoop pick i s size (some e) = some (size, some e) := by
  rw [drainLoop]

theorem drainLoop_step (pick : Nat → Bool) (i : Nat) (s s1 : LogStream) (size n : Int)
    (err1 : Option GoError) (h : readStreamFrame (pick i) s = some ((n, err1), s1)) :
    drainLoop pick i s size none = drainLoop pick (i + 1) s1 (wrapInt (size + n)) err1 := by
  rw [drainLoop]
  split
  · next h2 => rw [h] at h2; simp at h2
  · next n2 e2 s2 h2 =>
    rw [h] at h2
    simp only [Option.some.injEq, Prod.mk.injEq] at h2
    obtain ⟨⟨rfl, rfl⟩, rfl⟩ := h2
    rfl

theorem drainLoop_blocked (pick : Nat → Bool) (i : Nat) (s : LogStream) (size : Int)
    (h : readStreamFrame (pick i) s = none) : drainLoop pick i s size none = none := by
  rw [drainLoop]
  split
  · rfl
  · next n2 e2 s2 h2 => rw [h] at h2; simp at h2

theorem getLogSizeLocals_eq (pick : Nat → Bool) (s : LogStream) :
    getLogSizeLocals pick s = drainLoop pick 0 s 0 none := by
  unfold getLogSizeLocals
  cases h : readStreamFrame (pick 0) s with
  | none => rw [drainLoop_blocked pick 0 s 0 h]
  | some r =>
    obtain ⟨⟨n, err⟩, s1⟩ := r
    rw [drainLoop_step pick 0 s s1 0 n err h]

theorem drainLoop_clean (fs : List StreamFrame) (pick : Nat → Bool) (i : Nat) (size : Int)
    (h0 : 0 ≤ size) (hb : size + totalSize fs < 2 ^ 63) :
    drainLoop pick i (LogStream.mk fs true []) size none =
      some (size + totalSize fs, some ioEOF) := by
  induction fs generalizing i size with
  | nil =>
    have hr : readStreamFrame (pick i) (LogStream.mk [] true []) =
        some ((0, some ioEOF), LogStream.mk [] true []) := by
      simp [readStreamFrame, recvFrames, recvErrs]
    have hw : wrapInt (size + 0) = size :=
      by rw [add_zero]; exact wrapInt_eq_self size h0 (by simpa [totalSize] using hb)
    rw [drainLoop_step pick i _ _ size 0 _ hr, drainLoop_some, hw]
    simp [totalSize]
  | cons f fs ih =>
    rw [totalSize_cons] at hb
    have hpos := totalSize_nonneg fs
    have hr : readStreamFrame (pick i) (LogStream.mk (f :: fs) true []) =
        some (((f.Data.length : Int), none), LogStream.mk fs true []) := by
      simp [readStreamFrame, recvFrames, recvErrs]
    have hw : wrapInt (size + (f.Data.length : Int)) = size + (f.Data.length : Int) :=
      wrapInt_eq_self _ (by omega) (by omega)
    rw [drainLoop_step pick i _ _ size _ _ hr, hw,
      ih (i + 1) (size + (f.Data.length : Int)) (by omega) (by omega), totalSize_cons]
    congr 2
    omega

theorem drainLoop_error (fs : List StreamFrame) (e : GoError) (pick : Nat → Bool) (i : Nat)
    (size : Int) (h0 : 0 ≤ size) (hb : size + totalSize fs < 2 ^ 63) :
    drainLoop pick i (LogStream.mk fs false [some e]) size none =
      some (size + totalSize (fs.take (receivedBeforeError pick i fs.length)), some e) := by
  induction fs generalizing i size with
  | nil =>
    have hr : readStreamFrame (pick i) (LogStream.mk [] false [some e]) =
        some ((0, some e), LogStream.mk [] false []) := by
      simp [readStreamFrame, recvFrames, recvErrs]
    have hw : wrapInt (size + 0) = size :=
      by rw [add_zero]; exact wrapInt_eq_self size h0 (by simpa [totalSize] using hb)
    rw [drainLoop_step pick i _ _ size 0 _ hr, drainLoop_some, hw]
    simp [totalSize]
  | cons f fs ih =>
    rw [totalSize_cons] at hb
    have hpos := totalSize_nonneg fs
    cases hp : pick i with
    | true =>
      have hr : readStreamFrame true (LogStream.mk (f :: fs) false [some e]) =
          some ((0, some e), LogStream.mk (f :: fs) false []) := by
        simp [readStreamFrame, recvFrames, recvErrs]
      have hw : wrapInt (size + 0) = size :=
        by rw [add_zero]; exact wrapInt_eq_self size h0 (by omega)
      rw [drainLoop_step pick i _ _ size 0 _ (by rw [hp]; exact hr), drainLoop_some, hw]
      simp [receivedBeforeError, hp, totalSize]
    | false =>
      have hr : readStreamFrame false (LogStream.mk (f :: fs) false [some e]) =
          some (((f.Data.length : Int), none), LogStream.mk fs false [some e]) := by
        simp [readStreamFrame, recvFrames, recvErrs]
      have hw : wrapInt (size + (f.Data.length : Int)) = size + (f.Data.length : Int) :=
        wrapInt_eq_self _ (by omega) (by omega)
      rw [drainLoop_step pick i _ _ size _ _ (by rw [hp]; exact hr), hw,
        ih (i + 1) (size + (f.Data.length : Int)) (by omega) (by omega)]
      simp only [List.length_cons, receivedBeforeError, hp, Bool.false_eq_true, if_false,
        List.take_succ_cons, totalSize_cons]
      congr 2
      omega

theorem receivedBeforeError_le (pick : Nat → Bool) (i n : Nat) :
    receivedBeforeError pick i n ≤ n := by
  induction n generalizing i with
  | zero => simp [receivedBeforeError]
  | succ n ih =>
    unfold receivedBeforeError
    split
    · omega
    · have := ih (i + 1); omega

theorem receivedBeforeError_all (pick : Nat → Bool) (i n : Nat)
    (h : ∀ j, j < n → pick (i + j) = false) : receivedBeforeError pick i n = n := by
  induction n generalizing i with
  | zero => simp [receivedBeforeError]
  | succ n ih =>
    unfold receivedBeforeError
    have h0 : pick i = false := by simpa using h 0 (by omega)
    rw [h0]
    simp only [Bool.false_eq_true, if_false, Nat.add_right_cancel_iff]
    apply ih
    intro j hj
    have := h (j + 1) (by omega)
    rwa [show i + (j + 1) = i + 1 + j by omega] at this

/-! ## Lemmas on the mutex machine -/

theorem inv_step_reconciler (A B : List Allocation) (m : Machine) (h : Inv A B m) :
    Inv A B (m.step Tid.reconciler) := by
  obtain ⟨cell, owner, ⟨wtodo, wwriting, wseen⟩, ⟨rtodo, rwriting, rseen⟩⟩ := m
  obtain ⟨h1, h2, h3, h4, h5, h6, h7, h8⟩ := h
  simp only at h1 h2 h3 h4 h5 h6 h7 h8
  cases wtodo with
  | nil => exact ⟨h1, h2, h3, h4, h5, h6, h7, h8⟩
  | cons s rest =>
    cases s with
    | lock =>
      have hnw : wwriting = false := by
        cases hw : wwriting with
        | false => rfl
        | true => obtain ⟨_, v, r, hr⟩ := h3 hw; simp at hr
      by_cases ho : owner = none
      · subst ho
        simp only [Machine.step, stepThread, if_true]
        refine ⟨?_, ?_, ?_, ?_, h5, ?_, h7, h8⟩
        · simpa [storesLocked] using h1
        · intro v hv; exact h2 v (List.mem_cons_of_mem _ hv)
        · intro hw; simp [hnw] at hw
        · simpa using h4
        · intro hc; have := h6 hc; simp [hnw] at this
      · simp only [Machine.step, stepThread, ho, if_false]
        exact ⟨h1, h2, h3, h4, h5, h6, h7, h8⟩
    | unlock =>
      have hnw : wwriting = false := by
        cases hw : wwriting with
        | false => rfl
        | true => obtain ⟨_, v, r, hr⟩ := h3 hw; simp at hr
      by_cases ho : owner = some Tid.reconciler
      · subst ho
        simp only [Machine.step, stepThread, if_true]
        refine ⟨?_, ?_, ?_, ?_, h5, ?_, h7, h8⟩
        · simpa [storesLocked] using h1
        · intro v hv; exact h2 v (List.mem_cons_of_mem _ hv)
        · intro hw; simp [hnw] at hw
        · simpa using h4
        · intro hc; have := h6 hc; simp [hnw] at this
      · simp only [Machine.step, stepThread, ho, if_false]
        exact ⟨h1, h2, h3, h4, h5, h6, h7, h8⟩
    | store v =>
      have hv : v = B := h2 v (List.mem_cons_self _ _)
      have hheld : owner = some Tid.reconciler := by
        simp only [storesLocked, Bool.and_eq_true, decide_eq_true_eq] at h1
        exact h1.1
      cases hw : wwriting with
      | true =>
        simp only [Machine.step, stepThread, hw, if_true]
        refine ⟨?_, ?_, ?_, h4, h5, ?_, ?_, h8⟩
        · simp only [storesLocked, Bool.and_eq_true] at h1
          exact h1.2
        · intro u hu; exact h2 u (List.mem_cons_of_mem _ hu)
        · intro hf; simp at hf
        · intro hc; simp at hc
        · intro u hu
          simp only [Option.some.injEq] at hu
          right; rw [← hu, hv]
      | false =>
        simp only [Machine.step, stepThread, hw]
        refine ⟨h1, h2, ?_, h4, h5, ?_, ?_, h8⟩
        · intro _; exact ⟨hheld, v, rest, rfl⟩
        · intro _; rfl
        · intro u hu; simp at hu
    | _ =>
      simp only [Machine.step, stepThread]
      refine ⟨?_, ?_, ?_, h4, h5, ?_, h7, h8⟩
      · simpa [storesLocked] using h1
      · intro v hv; exact h2 v (List.mem_cons_of_mem _ hv)
      · intro hw; obtain ⟨_, v, r, hr⟩ := h3 hw; simp at hr
      · intro hc
        have hw := h6 hc
        obtain ⟨_, v, r, hr⟩ := h3 hw; simp at hr

theorem inv_step_other (A B : List Allocation) (m : Machine) (h : Inv A B m) :
    Inv A B (m.step Tid.other) := by
  obtain ⟨cell, owner, ⟨wtodo, wwriting, wseen⟩, ⟨rtodo, rwriting, rseen⟩⟩ := m
  obtain ⟨h1, h2, h3, h4, h5, h6, h7, h8⟩ := h
  simp only at h1 h2 h3 h4 h5 h6 h7 h8
  cases rtodo with
  | nil => exact ⟨h1, h2, h3, h4, h5, h6, h7, h8⟩
  | cons s rest =>
    have h5r : ∀ v, Step.store v ∉ rest := fun v hv => h5 v (List.mem_cons_of_mem _ hv)
    cases s with
    | load =>
      have hheld : owner = some Tid.other := by
        simp only [accessesLocked, Bool.and_eq_true, decide_eq_true_eq] at h4
        exact h4.1
      simp only [Machine.step, stepThread]
      refine ⟨h1, h2, h3, ?_, h5r, h6, h7, ?_⟩
      · simp only [accessesLocked, Bool.and_eq_true] at h4
        exact h4.2
      · intro o ho
        rw [List.mem_append] at ho
        rcases ho with ho | ho
        · exact h8 o ho
        · simp only [List.mem_singleton] at ho
          subst ho
          cases o with
          | none =>
            have hw := h6 rfl
            have := (h3 hw).1
            rw [hheld] at this
            simp at this
          | some v =>
            rcases h7 v rfl with hv | hv
            · left; rw [hv]
            · right; rw [hv]
    | lock =>
      by_cases ho : owner = none
      · subst ho
        have hnw : wwriting = false := by
          cases hw : wwriting with
          | false => rfl
          | true => have := (h3 hw).1; simp at this
        simp only [Machine.step, stepThread, if_true]
        refine ⟨?_, h2, ?_, ?_, h5r, h6, h7, h8⟩
        · simpa using h1
        · intro hw; simp [hnw] at hw
        · simpa [accessesLocked] using h4
      · simp only [Machine.step, stepThread, ho, if_false]
        exact ⟨h1, h2, h3, h4, h5, h6, h7, h8⟩
    | unlock =>
      by_cases ho : owner = some Tid.other
      · subst ho
        have hnw : wwriting = false := by
          cases hw : wwriting with
          | false => rfl
          | true => have := (h3 hw).1; simp at this
        simp only [Machine.step, stepThread, if_true]
        refine ⟨?_, h2, ?_, ?_, h5r, h6, h7, h8⟩
        · simpa using h1
        · intro hw; simp [hnw] at hw
        · simpa [accessesLocked] using h4
      · simp only [Machine.step, stepThread, ho, if_false]
        exact ⟨h1, h2, h3, h4, h5, h6, h7, h8⟩
    | store v => exact absurd (List.mem_cons_self _ _) (h5 v)
    | _ =>
      simp only [Machine.step, stepThread]
      exact ⟨h1, h2, h3, by simpa [accessesLocked] using h4, h5r, h6, h7, h8⟩

theorem inv_run (A B : List Allocation) (schedule : List Tid) (m : Machine) (h : Inv A B m) :
    Inv A B (m.run schedule) := by
  induction schedule generalizing m with
  | nil => exact h
  | cons tid rest ih =>
    unfold Machine.run
    rw [List.foldl_cons]
    apply ih
    cases tid with
    | reconciler => exact inv_step_reconciler A B m h
    | other => exact inv_step_other A B m h

theorem storesLocked_sendAdded (held : Bool) (l : List Allocation) (t : List Step) :
    storesLocked held (l.map Step.sendAdded ++ t) = storesLocked held t := by
  induction l with
  | nil => rfl
  | cons a rest ih => simpa [storesLocked] using ih

theorem storesLocked_sendRemoved (held : Bool) (l : List Allocation) (t : List Step) :
    storesLocked held (l.map Step.sendRemoved ++ t) = storesLocked held t := by
  induction l with
  | nil => rfl
  | cons a rest ih => simpa [storesLocked] using ih

/-- Every store of a tick is made with the mutex held. -/
theorem storesLocked_syncTick (A : List Allocation) (r : FetchResult) :
    storesLocked false (syncTick A r).trace = true := by
  obtain ⟨L, err⟩ := r
  cases err with
  | some e => simp [syncTick, storesLocked]
  | none =>
    have h := syncTick_fetched A L
    unfold fetched at h
    rw [h]
    simp only [List.append_assoc, List.cons_append, List.nil_append]
    show storesLocked false
      ((L.filter (fun a => isLive a && !allocationInSlice a A)).map Step.sendAdded ++
        ((A.filter (fun a => !allocationInSlice a (L.filter isLive))).map Step.sendRemoved ++
          [Step.lock, Step.store (L.filter isLive), Step.unlock])) = true
    rw [storesLocked_sendAdded, storesLocked_sendRemoved]
    rfl

theorem heldAfter_sendAdded (held : Bool) (l : List Allocation) (t : List Step) :
    heldAfter held (l.map Step.sendAdded ++ t) = heldAfter held t := by
  induction l with
  | nil => rfl
  | cons a rest ih => simpa [heldAfter] using ih

theorem heldAfter_sendRemoved (held : Bool) (l : List Allocation) (t : List Step) :
    heldAfter held (l.map Step.sendRemoved ++ t) = heldAfter held t := by
  induction l with
  | nil => rfl
  | cons a rest ih => simpa [heldAfter] using ih

/-- A tick ends with the mutex released. -/
theorem heldAfter_syncTick (A : List Allocation) (r : FetchResult) :
    heldAfter false (syncTick A r).trace = false := by
  obtain ⟨L, err⟩ := r
  cases err with
  | some e => simp [syncTick, heldAfter]
  | none =>
    have h := syncTick_fetched A L
    unfold fetched at h
    rw [h]
    simp only [List.append_assoc, List.cons_append, List.nil_append]
    show heldAfter false
      ((L.filter (fun a => isLive a && !allocationInSlice a A)).map Step.sendAdded ++
        ((A.filter (fun a => !allocationInSlice a (L.filter isLive))).map Step.sendRemoved ++
          [Step.lock, Step.store (L.filter isLive), Step.unlock])) = false
    rw [heldAfter_sendAdded, heldAfter_sendRemoved]
    rfl

/-- A tick stores nothing but the Tracked Set it leaves. -/
theorem store_mem_syncTick (A : List Allocation) (r : FetchResult) (v : List Allocation)
    (hv : Step.store v ∈ (syncTick A r).trace) : v = (syncTick A r).currentAllocations := by
  obtain ⟨L, err⟩ := r
  cases err with
  | some e => simp [syncTick] at hv
  | none =>
    have h := syncTick_fetched A L
    unfold fetched at h
    rw [h] at hv ⊢
    simpa using hv

/-- The first step of a tick reads the Tracked Set, and no `Lock` comes before
it. -/
theorem accessesLocked_syncTick (A : List Allocation) (r : FetchResult) :
    accessesLocked false (syncTick A r).trace = false := by
  obtain ⟨L, err⟩ := r
  cases err with
  | some e => simp [syncTick, accessesLocked]
  | none =>
    have h := syncTick_fetched A L
    unfold fetched at h
    rw [h]
    simp [accessesLocked]

/-- The invariant holds when a tick starts against a second goroutine that
stores nothing and reads under the mutex only. -/
theorem inv_tickMachine (A : List Allocation) (r : FetchResult) (program : List Step)
    (hacc : accessesLocked false program = true) (hst : ∀ v, Step.store v ∉ program) :
    Inv A (syncTick A r).currentAllocations (tickMachine A r program) := by
  refine ⟨?_, ?_, ?_, ?_, hst, ?_, ?_, ?_⟩
  · simpa [tickMachine] using storesLocked_syncTick A r
  · intro v hv
    exact store_mem_syncTick A r v hv
  · intro hw; simp [tickMachine] at hw
  · simpa [tickMachine] using hacc
  · intro hc; simp [tickMachine] at hc
  · intro v hv
    simp only [tickMachine, Option.some.injEq] at hv
    left; exact hv.symm
  · intro o ho; simp [tickMachine] at ho

/-! ## The reconciler: one tick -/

/-- C1: for every pre-tick Tracked Set `A` and every successfully fetched list
`L`, the workloads that one tick sends on `addedChan` are exactly the elements
of `L` whose `ClientStatus` is `running` or `restarting` and whose `ID` is the
`ID` of no element of `A`: one event for each such element, in the order of
`L`, carrying that element, and nothing else. -/
theorem added_events_exact (A L : List Allocation) :
    addedEvents (syncTick A (fetched L)).trace =
      L.filter (fun w =>
        (w.ClientStatus = "running" ∨ w.ClientStatus = "restarting") ∧ w.ID ∉ ids A) := by
  rw [addedEvents_fetched]
  apply List.filter_congr
  intro w _
  by_cases hl : isLive w = true
  · by_cases hin : allocationInSlice w A = true
    · have h1 := (isLive_iff w).1 hl
      have h2 := (allocationInSlice_iff w A).1 hin
      simp [hl, hin, h1, h2]
    · have h1 := (isLive_iff w).1 hl
      have h2 : w.ID ∉ ids A := fun h => hin ((allocationInSlice_iff w A).2 h)
      simp [hl, hin, h1, h2]
  · have h1 : ¬ (w.ClientStatus = "running" ∨ w.ClientStatus = "restarting") :=
      fun h => hl ((isLive_iff w).2 h)
    simp [hl, h1]

/-- C2: for every pre-tick Tracked Set `A` and every successfully fetched list
`L`, the workloads that one tick sends on `removedChan` are exactly the
elements of `A` whose `ID` is the `ID` of no workload of `L` with status
`running` or `restarting`: one event for each such element, in the order of
`A`, and nothing else. In particular a tracked workload every entry of which
in `L` (if any) has another status is removed. -/
theorem removed_events_exact (A L : List Allocation) :
    removedEvents (syncTick A (fetched L)).trace =
        A.filter (fun a => a.ID ∉ ids (foundSet L)) ∧
      ∀ a ∈ A,
        (∀ w ∈ L, w.ID = a.ID →
          ¬ (w.ClientStatus = "running" ∨ w.ClientStatus = "restarting")) →
        a ∈ removedEvents (syncTick A (fetched L)).trace := by
  have key : removedEvents (syncTick A (fetched L)).trace =
      A.filter (fun a => a.ID ∉ ids (foundSet L)) := by
    rw [removedEvents_fetched, foundSet_eq]
    apply List.filter_congr
    intro a _
    by_cases hin : allocationInSlice a (L.filter isLive) = true
    · have h2 := (allocationInSlice_iff a _).1 hin
      simp [hin, h2]
    · have h2 : a.ID ∉ ids (L.filter isLive) := fun h => hin ((allocationInSlice_iff a _).2 h)
      simp [hin, h2]
  refine ⟨key, ?_⟩
  intro a ha hno
  rw [key, List.mem_filter]
  refine ⟨ha, ?_⟩
  have : a.ID ∉ ids (foundSet L) := by
    intro hmem
    unfold ids at hmem
    rw [List.mem_map] at hmem
    obtain ⟨w, hw, hid⟩ := hmem
    unfold foundSet at hw
    rw [List.mem_filter] at hw
    exact hno w hw.1 hid (by simpa using hw.2)
  simpa using this

/-- C3: for every pre-tick Tracked Set and every successfully fetched list `L`,
the Tracked Set after one tick is the Found Set, the sublist of `L` of the
workloads with status `running` or `restarting` in the order of `L`; it is
empty when that sublist is, and holds no workload of another status. -/
theorem tracked_set_becomes_found_set (A L : List Allocation) :
    (syncTick A (fetched L)).currentAllocations = foundSet L ∧
      (foundSet L = [] → (syncTick A (fetched L)).currentAllocations = []) ∧
      ∀ w, ¬ (w.ClientStatus = "running" ∨ w.ClientStatus = "restarting") →
        w ∉ (syncTick A (fetched L)).currentAllocations := by
  have key : (syncTick A (fetched L)).currentAllocations = foundSet L := by
    rw [syncTick_fetched, foundSet_eq]
  refine ⟨key, fun h => by rw [key, h], ?_⟩
  intro w hw hmem
  rw [key] at hmem
  unfold foundSet at hmem
  rw [List.mem_filter] at hmem
  exact hw (by simpa using hmem.2)

/-- C4: for every pre-tick Tracked Set, a tick whose fetch returns an error
`e` (whatever list comes with it) sends exactly one message on `errChan`, the
error `e` itself, sends nothing on `addedChan` nor on `removedChan`, and leaves
the Tracked Set as it was. -/
theorem fetch_error_is_noop_tick (A allocations : List Allocation) (e : GoError) :
    errEvents (syncTick A (FetchResult.mk allocations (some e))).trace = [e] ∧
      addedEvents (syncTick A (FetchResult.mk allocations (some e))).trace = [] ∧
      removedEvents (syncTick A (FetchResult.mk allocations (some e))).trace = [] ∧
      (syncTick A (FetchResult.mk allocations (some e))).currentAllocations = A := by
  simp [syncTick, errEvents, addedEvents, removedEvents]

/-- C8 (idempotent steady state): when the Found Set of the fetched list has
the same set of IDs as the pre-tick Tracked Set `A`, in whatever order, one
tick sends nothing on `addedChan`, nothing on `removedChan`, and leaves the
Found Set as the Tracked Set. -/
theorem steady_state_no_events (A L : List Allocation)
    (h : ∀ id, id ∈ ids A ↔ id ∈ ids (foundSet L)) :
    addedEvents (syncTick A (fetched L)).trace = [] ∧
      removedEvents (syncTick A (fetched L)).trace = [] ∧
      (syncTick A (fetched L)).currentAllocations = foundSet L := by
  rw [foundSet_eq] at h
  refine ⟨?_, ?_, ?_⟩
  · rw [addedEvents_fetched, List.filter_eq_nil_iff]
    intro w hw
    by_cases hl : isLive w = true
    · have hmem : w.ID ∈ ids (L.filter isLive) :=
        List.mem_map.2 ⟨w, List.mem_filter.2 ⟨hw, hl⟩, rfl⟩
      have := (allocationInSlice_iff w A).2 ((h w.ID).2 hmem)
      simp [hl, this]
    · simp [hl]
  · rw [removedEvents_fetched, List.filter_eq_nil_iff]
    intro a ha
    have hmem : a.ID ∈ ids A := List.mem_map.2 ⟨a, ha, rfl⟩
    have := (allocationInSlice_iff a (L.filter isLive)).2 ((h a.ID).1 hmem)
    simp [this]
  · rw [syncTick_fetched, foundSet_eq]

/-- Witness of C8: the tracked workloads `a`, `b` are fetched again in the
other order, with a third workload that is pending. -/
theorem steady_state_no_events_witness :
    (∀ id, id ∈ ids [Allocation.mk "a" "running" "web", Allocation.mk "b" "restarting" "db"] ↔
        id ∈ ids (foundSet [Allocation.mk "b" "running" "db", Allocation.mk "c" "pending" "job",
          Allocation.mk "a" "running" "web"])) ∧
      addedEvents (syncTick
        [Allocation.mk "a" "running" "web", Allocation.mk "b" "restarting" "db"]
        (fetched [Allocation.mk "b" "running" "db", Allocation.mk "c" "pending" "job",
          Allocation.mk "a" "running" "web"])).trace = [] ∧
      removedEvents (syncTick
        [Allocation.mk "a" "running" "web", Allocation.mk "b" "restarting" "db"]
        (fetched [Allocation.mk "b" "running" "db", Allocation.mk "c" "pending" "job",
          Allocation.mk "a" "running" "web"])).trace = [] ∧
      (syncTick
        [Allocation.mk "a" "running" "web", Allocation.mk "b" "restarting" "db"]
        (fetched [Allocation.mk "b" "running" "db", Allocation.mk "c" "pending" "job",
          Allocation.mk "a" "running" "web"])).currentAllocations =
        foundSet [Allocation.mk "b" "running" "db", Allocation.mk "c" "pending" "job",
          Allocation.mk "a" "running" "web"] :=
  have h : ∀ id, id ∈ ids [Allocation.mk "a" "running" "web", Allocation.mk "b" "restarting" "db"] ↔
      id ∈ ids (foundSet [Allocation.mk "b" "running" "db", Allocation.mk "c" "pending" "job",
        Allocation.mk "a" "running" "web"]) := by
    intro id
    simp [ids, foundSet, List.filter]
    tauto
  ⟨h, steady_state_no_events _ _ h⟩

/-- C7, as stated, fails: a fetched list that holds two live entries of one ID
(here `x`, untracked before the tick) yields two Added events of that ID, and
the next tick, fetching an empty list, yields two Removed events of it. -/
theorem no_duplicate_events_counterexample :
    ids (addedEvents (syncTick []
        (fetched [Allocation.mk "x" "running" "web", Allocation.mk "x" "restarting" "web"])).trace)
        = ["x", "x"] ∧
      ¬ (ids (addedEvents (syncTick []
        (fetched [Allocation.mk "x" "running" "web",
          Allocation.mk "x" "restarting" "web"])).trace)).Nodup ∧
      (syncTick [] (fetched [Allocation.mk "x" "running" "web",
          Allocation.mk "x" "restarting" "web"])).currentAllocations =
        [Allocation.mk "x" "running" "web", Allocation.mk "x" "restarting" "web"] ∧
      ¬ (ids (removedEvents (syncTick
        [Allocation.mk "x" "running" "web", Allocation.mk "x" "restarting" "web"]
        (fetched [])).trace)).Nodup := by
  refine ⟨?_, ?_, ?_, ?_⟩
  · rw [addedEvents_fetched]; decide
  · rw [addedEvents_fetched]; decide
  · rw [syncTick_fetched]; decide
  · rw [removedEvents_fetched]; decide

/-- C7, amended: in one tick with a successful fetch of `L` from the Tracked
Set `A`, if the live workloads of `L` have pairwise distinct IDs then no ID is
carried by two Added events, and if the workloads of `A` have pairwise
distinct IDs then no ID is carried by two Removed events; the Tracked Set the
tick leaves then has pairwise distinct IDs again. -/
theorem no_duplicate_events_of_distinct_ids (A L : List Allocation) :
    ((ids (foundSet L)).Nodup → (ids (addedEvents (syncTick A (fetched L)).trace)).Nodup) ∧
      ((ids A).Nodup → (ids (removedEvents (syncTick A (fetched L)).trace)).Nodup) ∧
      ((ids (foundSet L)).Nodup → (ids (syncTick A (fetched L)).currentAllocations).Nodup) := by
  refine ⟨?_, ?_, ?_⟩
  · intro h
    rw [foundSet_eq] at h
    rw [addedEvents_fetched]
    have hsub : List.Sublist (L.filter (fun a => isLive a && !allocationInSlice a A))
        (L.filter isLive) := by
      have : L.filter (fun a => isLive a && !allocationInSlice a A) =
          (L.filter isLive).filter (fun a => !allocationInSlice a A) := by
        rw [List.filter_filter]
        apply List.filter_congr
        intro a _
        exact Bool.and_comm _ _
      rw [this]
      exact List.filter_sublist _
    exact List.Nodup.sublist (List.Sublist.map _ hsub) h
  · intro h
    rw [removedEvents_fetched]
    exact ids_filter_nodup A _ h
  · intro h
    rw [syncTick_fetched]
    rw [foundSet_eq] at h
    exact h

/-- Witness of the amended C7: `a` and `b` are tracked; `b`, `c` and `d` are
fetched live with distinct IDs, and `a` is fetched as failed. -/
theorem no_duplicate_events_of_distinct_ids_witness :
    (ids (foundSet [Allocation.mk "b" "running" "db", Allocation.mk "c" "running" "job",
        Allocation.mk "a" "failed" "web", Allocation.mk "d" "restarting" "job"])).Nodup ∧
      (ids [Allocation.mk "a" "running" "web", Allocation.mk "b" "running" "db"]).Nodup ∧
      (ids (addedEvents (syncTick
        [Allocation.mk "a" "running" "web", Allocation.mk "b" "running" "db"]
        (fetched [Allocation.mk "b" "running" "db", Allocation.mk "c" "running" "job",
          Allocation.mk "a" "failed" "web", Allocation.mk "d" "restarting" "job"])).trace)).Nodup ∧
      (ids (removedEvents (syncTick
        [Allocation.mk "a" "running" "web", Allocation.mk "b" "running" "db"]
        (fetched [Allocation.mk "b" "running" "db", Allocation.mk "c" "running" "job",
          Allocation.mk "a" "failed" "web", Allocation.mk "d" "restarting" "job"])).trace)).Nodup :=
  have hL : (ids (foundSet [Allocation.mk "b" "running" "db", Allocation.mk "c" "running" "job",
      Allocation.mk "a" "failed" "web", Allocation.mk "d" "restarting" "job"])).Nodup := by
    decide
  have hA : (ids [Allocation.mk "a" "running" "web", Allocation.mk "b" "running" "db"]).Nodup := by
    decide
  ⟨hL, hA, (no_duplicate_events_of_distinct_ids _ _).1 hL,
    (no_duplicate_events_of_distinct_ids _ _).2.1 hA⟩

/-! ## The reconciler: event replay -/

/-- C10: after one tick with a successful fetch from the Tracked Set `A`, the
set of IDs of the new Tracked Set is the set of IDs of `A`, plus the IDs of
the Added events of the tick, minus the IDs of its Removed events; and over
any run of ticks, failed fetches included, a consumer that starts from the ID
set of `A` and applies the events in the order sent holds the ID set of the
Tracked Set the run leaves. -/
theorem event_replay_tracks_ids (A : List Allocation) :
    (∀ L : List Allocation,
      (ids (syncTick A (fetched L)).currentAllocations).toFinset =
        ((ids A).toFinset ∪ (ids (addedEvents (syncTick A (fetched L)).trace)).toFinset)
          \ (ids (removedEvents (syncTick A (fetched L)).trace)).toFinset) ∧
      ∀ rs : List FetchResult,
        replay (ids A).toFinset (SyncAllocations A rs).1 =
          (ids (SyncAllocations A rs).2).toFinset := by
  constructor
  · intro L
    rw [addedEvents_fetched, removedEvents_fetched, ids_bookkeeping, syncTick_fetched]
  · intro rs
    induction rs generalizing A with
    | nil => simp [SyncAllocations, replay]
    | cons r rest ih =>
      simp only [SyncAllocations, replay_append, replay_syncTick]
      exact ih _

/-! ## The reconciler: the mutex -/

/-- C9: the tick misses the claim at its snapshot read. On a tick that finds
the one tracked workload again the steps are the read of line 29, the fetch,
and then `Lock`, the write and `Unlock`: the write is made with the mutex
held, the read is made first, before any `Lock`. Run against a goroutine that
replaces the Tracked Set under the mutex, that read can fall in the middle of
the write and take a partially written sequence. -/
theorem snapshot_read_outside_lock :
    (syncTick [Allocation.mk "a" "running" "web"]
        (fetched [Allocation.mk "a" "running" "web"])).trace =
        [Step.load, Step.fetch, Step.lock, Step.store [Allocation.mk "a" "running" "web"],
          Step.unlock] ∧
      accessesLocked false (syncTick [Allocation.mk "a" "running" "web"]
        (fetched [Allocation.mk "a" "running" "web"])).trace = false ∧
      storesLocked false (syncTick [Allocation.mk "a" "running" "web"]
        (fetched [Allocation.mk "a" "running" "web"])).trace = true ∧
      ((tickMachine [Allocation.mk "a" "running" "web"]
        (fetched [Allocation.mk "a" "running" "web"])
        (lockingWriter [Allocation.mk "b" "running" "db"])).run
        [Tid.other, Tid.other, Tid.reconciler]).reconciler.seen = [none] := by
  refine ⟨?_, ?_, ?_, ?_⟩
  · rw [syncTick_fetched]; decide
  · rw [syncTick_fetched]; decide
  · rw [syncTick_fetched]; decide
  · decide

/-- The write path of a tick keeps the lock discipline: every write of the
Tracked Set is made while the reconciler holds the mutex, the tick writes
nothing but the new Tracked Set, and it ends with the mutex released; so under
every schedule a concurrent reader that takes the lock reads the whole old
Tracked Set or the whole new one, never a partially written sequence. -/
theorem write_path_locked (A : List Allocation) (r : FetchResult) :
    storesLocked false (syncTick A r).trace = true ∧
      heldAfter false (syncTick A r).trace = false ∧
      (∀ v, Step.store v ∈ (syncTick A r).trace → v = (syncTick A r).currentAllocations) ∧
      ∀ schedule : List Tid,
        ∀ o ∈ ((tickMachine A r lockingReader).run schedule).other.seen,
          o = some A ∨ o = some (syncTick A r).currentAllocations := by
  refine ⟨storesLocked_syncTick A r, heldAfter_syncTick A r, store_mem_syncTick A r, ?_⟩
  intro schedule
  have hinv := inv_run A (syncTick A r).currentAllocations schedule _
    (inv_tickMachine A r lockingReader (by decide)
      (fun v hv => by simp [lockingReader] at hv))
  exact hinv.rdSeen

/-- A reader that takes the lock does read: scheduled before the tick it reads
the old Tracked Set, scheduled after it the new one. -/
theorem lockingReader_reads_old_and_new :
    ((tickMachine [Allocation.mk "a" "running" "web"]
        (fetched [Allocation.mk "b" "running" "db"]) lockingReader).run
        [Tid.other, Tid.other, Tid.other]).other.seen =
        [some [Allocation.mk "a" "running" "web"]] ∧
      ((tickMachine [Allocation.mk "a" "running" "web"]
        (fetched [Allocation.mk "b" "running" "db"]) lockingReader).run
        (List.replicate 9 Tid.reconciler ++ [Tid.other, Tid.other, Tid.other])).other.seen =
        [some [Allocation.mk "b" "running" "db"]] := by
  constructor <;> decide

/-- A reader that does not take the lock can read a partially written
sequence: the mutex is what excludes it. -/
theorem lockless_reader_reads_partial_write :
    ((tickMachine [Allocation.mk "a" "running" "web"]
        (fetched [Allocation.mk "b" "running" "db"]) [Step.load]).run
        (List.replicate 6 Tid.reconciler ++ [Tid.other])).other.seen = [none] := by
  decide

/-! ## The one-shot size probe -/

/-- C5, as stated, fails, on its own example: with the frames of 10 and 20
bytes queued on `frames` and the transport error queued on `errs`, the second
select may take the error, and `GetLogSize` returns 10, not 30; the first may
take it, and `GetLogSize` returns 0. -/
theorem getLogSize_sums_delivered_counterexample :
    GetLogSize (fun i => decide (i = 1))
        (LogStream.mk [frameOfSize 10, frameOfSize 20] false
          [some (GoError.mk "connection reset")]) = some 10 ∧
      GetLogSize (fun _ => true)
        (LogStream.mk [frameOfSize 10, frameOfSize 20] false
          [some (GoError.mk "connection reset")]) = some 0 ∧
      totalSize [frameOfSize 10, frameOfSize 20] = 30 := by
  refine ⟨?_, ?_, by decide⟩
  · simp [GetLogSize, getLogSizeLocals, drainLoop, readStreamFrame, recvFrames, recvErrs,
      frameOfSize, wrapInt]
  · simp [GetLogSize, getLogSizeLocals, drainLoop, readStreamFrame, recvFrames, recvErrs,
      frameOfSize, wrapInt]

/-- C5, amended: for every finite sequence of frames `fs` of a total size
below `2^63` and every run of the selects, `GetLogSize` returns. After a clean
close of the frame channel it returns the sum of the byte lengths of all of
`fs`. With a transport error on the error channel it returns the sum of the
byte lengths of the frames it received before a select took the error: a
prefix of `fs`, and all of `fs` when every select that found a frame took
it. -/
theorem getLogSize_sums_received (fs : List StreamFrame) (e : GoError) (pick : Nat → Bool)
    (hb : totalSize fs < 2 ^ 63) :
    GetLogSize pick (LogStream.mk fs true []) = some (totalSize fs) ∧
      GetLogSize pick (LogStream.mk fs false [some e]) =
        some (totalSize (fs.take (receivedBeforeError pick 0 fs.length))) ∧
      receivedBeforeError pick 0 fs.length ≤ fs.length ∧
      ((∀ i, i < fs.length → pick i = false) →
        GetLogSize pick (LogStream.mk fs false [some e]) = some (totalSize fs)) := by
  have h1 := drainLoop_clean fs pick 0 0 (le_refl _) (by omega)
  have h2 := drainLoop_error fs e pick 0 0 (le_refl _) (by omega)
  simp only [zero_add] at h1 h2
  refine ⟨?_, ?_, receivedBeforeError_le pick 0 fs.length, ?_⟩
  · unfold GetLogSize
    rw [getLogSizeLocals_eq, h1]
    rfl
  · unfold GetLogSize
    rw [getLogSizeLocals_eq, h2]
    rfl
  · intro hp
    have hall : receivedBeforeError pick 0 fs.length = fs.length :=
      receivedBeforeError_all pick 0 fs.length (fun j hj => by simpa using hp j hj)
    unfold GetLogSize
    rw [getLogSizeLocals_eq, h2, hall, List.take_length]
    rfl

/-- Witness of the amended C5: frames of 10, 20 and 5 bytes and a clean close
give 35 whatever the selects would choose; frames of 10 and 20 bytes and a
transport error give 30 when the selects take the frames first. -/
theorem getLogSize_sums_received_witness :
    GetLogSize (fun _ => true)
        (LogStream.mk [frameOfSize 10, frameOfSize 20, frameOfSize 5] true []) = some 35 ∧
      GetLogSize (fun _ => false)
        (LogStream.mk [frameOfSize 10, frameOfSize 20] false
          [some (GoError.mk "connection reset")]) = some 30 :=
  ⟨(getLogSize_sums_received [frameOfSize 10, frameOfSize 20, frameOfSize 5]
      (GoError.mk "connection reset") (fun _ => true) (by decide)).1,
    (getLogSize_sums_received [frameOfSize 10, frameOfSize 20]
      (GoError.mk "connection reset") (fun _ => false) (by decide)).2.2.2 (fun _ _ => rfl)⟩

/-- C6, as stated, fails: `GetLogSize` returns one `int64` and no error. On the
frames of 10 and 20 bytes, received in full, it returns 30 both after a clean
close and after a transport error, so no reading of its result tells `nil`
after the one from the error after the other; and at a clean close the `err`
of its loop is `io.EOF`, not `nil`. -/
theorem getLogSize_reports_ending_counterexample :
    (¬ ∃ errOf : Option Int → Option GoError,
        errOf (GetLogSize (fun _ => false)
          (LogStream.mk [frameOfSize 10, frameOfSize 20] true [])) = none ∧
        errOf (GetLogSize (fun _ => false)
          (LogStream.mk [frameOfSize 10, frameOfSize 20] false
            [some (GoError.mk "connection reset")])) = some (GoError.mk "connection reset")) ∧
      getLogSizeLocals (fun _ => false)
        (LogStream.mk [frameOfSize 10, frameOfSize 20] true []) = some (30, some ioEOF) := by
  have e1 : getLogSizeLocals (fun _ => false)
      (LogStream.mk [frameOfSize 10, frameOfSize 20] true []) = some (30, some ioEOF) := by
    simp [getLogSizeLocals, drainLoop, readStreamFrame, recvFrames, recvErrs,
      frameOfSize, wrapInt]
  have e2 : getLogSizeLocals (fun _ => false)
      (LogStream.mk [frameOfSize 10, frameOfSize 20] false
        [some (GoError.mk "connection reset")]) =
        some (30, some (GoError.mk "connection reset")) := by
    simp [getLogSizeLocals, drainLoop, readStreamFrame, recvFrames, recvErrs,
      frameOfSize, wrapInt]
  refine ⟨?_, e1⟩
  rintro ⟨errOf, h1, h2⟩
  unfold GetLogSize at h1 h2
  rw [e1] at h1
  rw [e2] at h2
  simp only [Option.map_some'] at h1 h2
  rw [h1] at h2
  exact Option.noConfusion h2

/-- C6, amended: `GetLogSize` returns the size alone, the first component of
what its loop ends with, and no error. How the stream ended is known to the
loop only: at a clean close `readStreamFrame` gives `(0, io.EOF)`, a non-nil
error, and the loop exits with the size accumulated and `io.EOF` in `err`; at
a transport error `e` it gives `(0, e)`, unchanged, and the loop exits with the
size accumulated so far and `e` in `err`. -/
theorem getLogSize_drops_ending (fs : List StreamFrame) (e : GoError) (pick : Nat → Bool)
    (hb : totalSize fs < 2 ^ 63) :
    (∀ s : LogStream, GetLogSize pick s = (getLogSizeLocals pick s).map Prod.fst) ∧
      (∀ b : Bool, readStreamFrame b (LogStream.mk [] true []) =
        some ((0, some ioEOF), LogStream.mk [] true [])) ∧
      (∀ b : Bool, readStreamFrame b (LogStream.mk [] false [some e]) =
        some ((0, some e), LogStream.mk [] false [])) ∧
      getLogSizeLocals pick (LogStream.mk fs true []) = some (totalSize fs, some ioEOF) ∧
      getLogSizeLocals pick (LogStream.mk fs false [some e]) =
        some (totalSize (fs.take (receivedBeforeError pick 0 fs.length)), some e) := by
  have h1 := drainLoop_clean fs pick 0 0 (le_refl _) (by omega)
  have h2 := drainLoop_error fs e pick 0 0 (le_refl _) (by omega)
  simp only [zero_add] at h1 h2
  refine ⟨fun _ => rfl, ?_, ?_, ?_, ?_⟩
  · intro b; simp [readStreamFrame, recvFrames, recvErrs]
  · intro b; simp [readStreamFrame, recvFrames, recvErrs]
  · rw [getLogSizeLocals_eq, h1]
  · rw [getLogSizeLocals_eq, h2]

/-- Witness of the amended C6, on the frames of 10 and 20 bytes received in
full: the loop ends with 30 and `io.EOF` at a clean close, and with 30 and the
transport error at a transport error. -/
theorem getLogSize_drops_ending_witness :
    totalSize [frameOfSize 10, frameOfSize 20] < 2 ^ 63 ∧
      getLogSizeLocals (fun _ => false)
        (LogStream.mk [frameOfSize 10, frameOfSize 20] true []) = some (30, some ioEOF) ∧
      getLogSizeLocals (fun _ => false)
        (LogStream.mk [frameOfSize 10, frameOfSize 20] false
          [some (GoError.mk "connection reset")]) =
        some (30, some (GoError.mk "connection reset")) :=
  ⟨by decide,
    (getLogSize_drops_ending [frameOfSize 10, frameOfSize 20]
      (GoError.mk "connection reset") (fun _ => false) (by decide)).2.2.2.1,
    (getLogSize_drops_ending [frameOfSize 10, frameOfSize 20]
      (GoError.mk "connection reset") (fun _ => false) (by decide)).2.2.2.2⟩

end NomadShipper
